import Mathlib

/-!
Verification of the shoping_crawler repository's extraction / normalization /
aggregation pipeline (src/danawa.py, src/guidecom.py, src/streamlit_app.py).

The Python code is shallowly embedded: the DOM queries performed by the parsers
(BeautifulSoup `find` / `find_all` / `select_one` calls) are cut at the
document boundary and become fields of explicit document / item structures,
while every piece of control flow, string processing and aggregation logic is
translated literally.  Python exceptions are modelled with `Except`, `None`
with `Option`.  Python `str.strip` / `str.split()` are modelled over the
character list of a `String` (ASCII whitespace, which covers every string the
programs build).
-/

namespace Crawler

/-- Python `str.strip()`: drop leading and trailing whitespace. -/
def pyStrip (s : String) : String :=
  ⟨((s.data.dropWhile Char.isWhitespace).reverse.dropWhile Char.isWhitespace).reverse⟩

/-- Python `a + b` on strings, at the character-list level. -/
def pyConcat (a b : String) : String :=
  ⟨a.data ++ b.data⟩

/-- Scanner for the maximal-run extraction: `cur` is the reversed current
run. -/
def runsByAux (p : Char → Bool) : List Char → List Char → List (List Char)
  | [], cur => if cur.isEmpty then [] else [cur.reverse]
  | c :: rest, cur =>
    if p c then
      runsByAux p rest (c :: cur)
    else
      if cur.isEmpty then runsByAux p rest []
      else cur.reverse :: runsByAux p rest []

/-- Maximal runs of characters satisfying `p` (used for `re.findall` of a
character class, and for `str.split()`). -/
def runsBy (p : Char → Bool) (l : List Char) : List (List Char) :=
  runsByAux p l []

/-- Python `' '.join(s.split())`: words of `s` joined by single spaces. -/
def collapseWs (s : String) : String :=
  ⟨List.intercalate [' '] (runsBy (fun c => !c.isWhitespace) s.data)⟩

/-- Python `sep.join(l)`. -/
def pyJoin (sep : String) : List String → String
  | [] => ""
  | [x] => x
  | x :: y :: xs => pyConcat x (pyConcat sep (pyJoin sep (y :: xs)))

/-- Python `s.replace(c, r)` for a single-character needle. -/
def pyReplaceChar (s : String) (c : Char) (r : String) : String :=
  ⟨(s.data.map (fun ch => if ch = c then r.data else [ch])).flatten⟩

/-- Value of a decimal digit string, as Python `int` computes it. -/
def digitsToNat (l : List Char) : Nat :=
  l.foldl (fun a c => a * 10 + (c.toNat - 48)) 0

/-- Python `str.isdigit()` (ASCII digits). -/
def pyIsDigit (s : String) : Bool :=
  !s.data.isEmpty && s.data.all Char.isDigit

/-- A character matched by the regex class `[0-9,]`. -/
def isNumChar (c : Char) : Bool :=
  c.isDigit || c == ','

/-- A product row as built by both parsers (`danawa.Product`,
`guidecom.Product`): three string fields. -/
structure Product where
  name : String
  price : String
  specifications : String
deriving DecidableEq

/--
`extract_price_number(price_str)` as written (identically) in
`danawa.save_to_excel`, `guidecom._prepare_excel_data` and the two
`extract_price` closures of `streamlit_app.py`:

    numbers = re.findall(r'[0-9,]+', price_str)
    if numbers:
        return int(numbers[0].replace(',', ''))
    return 999999999

`Except.error` models the `ValueError` that `int('')` raises when the first
matched run consists of commas only.
-/
def extract_price_number (s : String) : Except Unit Nat :=
  match runsBy isNumChar s.data with
  | [] => .ok 999999999
  | run :: _ =>
    let d := run.filter (fun c => c != ',')
    if d.isEmpty then .error () else .ok (digitsToNat d)

/-- Sort key actually used on the non-raising branch of the sort. -/
def priceKey (p : Product) : Nat :=
  match extract_price_number p.price with
  | .ok n => n
  | .error _ => 0

/-- The comparison the Python `list.sort(key=extract_price(p.price))` induces. -/
def priceLe (p q : Product) : Prop :=
  priceKey p ≤ priceKey q

instance : DecidableRel priceLe :=
  fun p q => Nat.decLe (priceKey p) (priceKey q)

instance : IsTotal Product priceLe :=
  ⟨fun a b => Nat.le_total (priceKey a) (priceKey b)⟩

instance : IsTrans Product priceLe :=
  ⟨fun _ _ _ h h' => Nat.le_trans h h'⟩

/-- Whether an `Except` carries a value. -/
def exOk : Except Unit Nat → Bool
  | .ok _ => true
  | .error _ => false

instance {ε α : Type} [DecidableEq ε] [DecidableEq α] :
    DecidableEq (Except ε α) := fun a b =>
  match a, b with
  | .ok x, .ok y =>
    if h : x = y then isTrue (congrArg Except.ok h)
    else isFalse (fun e => h (Except.ok.inj e))
  | .error x, .error y =>
    if h : x = y then isTrue (congrArg Except.error h)
    else isFalse (fun e => h (Except.error.inj e))
  | .ok _, .error _ => isFalse (fun e => Except.noConfusion e)
  | .error _, .ok _ => isFalse (fun e => Except.noConfusion e)

/--
`all_products.sort(key=lambda p: extract_price_number(p.price))`: Python's
sort is stable, so it coincides with insertion sort on the non-strict key
comparison; computing a key may raise (`Except.error`), in which case the sort
raises.
-/
def sortByPrice (l : List Product) : Except Unit (List Product) :=
  if l.all (fun p => exOk (extract_price_number p.price)) then
    .ok (List.insertionSort priceLe l)
  else
    .error ()

/-- First-occurrence-wins dedup by name, as in the
`[p for p in all_products if p.name not in seen_names and not seen_names.add(p.name)]`
comprehensions of `streamlit_app.py` and the loop of
`guidecom._prepare_excel_data`. -/
def ddAux : List Product → List String → List Product
  | [], _ => []
  | p :: rest, seen =>
    if p.name ∈ seen then ddAux rest seen else p :: ddAux rest (p.name :: seen)

def dedupByName (l : List Product) : List Product :=
  ddAux l []

/-- The danawa/guidecom search handlers of `streamlit_app.py`: dedup the
combined passes by name FIRST, then sort by price. -/
def streamlitAggregate (l : List Product) : Except Unit (List Product) :=
  sortByPrice (dedupByName l)

/-- `GuidecomParser._prepare_excel_data`: flatten the per-category results,
sort by price FIRST, then dedup by name (row numbering / DataFrame layout of
the surviving rows is presentation only and omitted). -/
def prepareExcelData (results : List (List Product)) : Except Unit (List Product) :=
  match sortByPrice results.flatten with
  | .error e => .error e
  | .ok sorted => .ok (dedupByName sorted)

/-- One `button.button__option` element: its `data-optionname` /
`data-optioncode` attributes (`none` = attribute absent). -/
structure OptionButton where
  optionname : Option String
  optioncode : Option String
deriving DecidableEq

/-- The parts of the search page `DanawaParser.get_search_options` queries:
the button lists of the `makerBrandTab` / `makerOptionTab` containers
(`none` = container not found). -/
structure MakerDoc where
  makerBrandTab : Option (List OptionButton)
  makerOptionTab : Option (List OptionButton)
deriving DecidableEq

/-- One facet dict `{'category': ..., 'name': ..., 'code': ...}`. -/
structure Facet where
  category : String
  name : String
  code : String
deriving DecidableEq

/-- The hardcoded fallback list used by `get_search_options` when no option
was discovered in the document. -/
def defaultManufacturers : List Facet :=
  [⟨"제조사", "삼성전자", "185"⟩,
   ⟨"제조사", "LG전자", "21"⟩,
   ⟨"제조사", "ASUS", "17"⟩,
   ⟨"제조사", "MSI", "143"⟩,
   ⟨"제조사", "GIGABYTE", "399"⟩,
   ⟨"제조사", "EVGA", "3148"⟩,
   ⟨"제조사", "조텍", "3142"⟩,
   ⟨"제조사", "갤럭시", "3154"⟩,
   ⟨"제조사", "인텔", "16"⟩,
   ⟨"제조사", "AMD", "238"⟩,
   ⟨"제조사", "웨스턴디지털", "22"⟩,
   ⟨"제조사", "시게이트", "24"⟩]

/--
The option-collection loop of `get_search_options`: collect `brand_names`
from the `makerBrandTab` buttons (truthy `data-optionname` only), then keep a
`makerOptionTab` button iff its name is among `brand_names`, its code is
truthy and `opt_code.isdigit()`.
-/
def qualifyingFacets (bt ot : List OptionButton) : List Facet :=
  let brandNames := bt.filterMap (fun b =>
    match b.optionname with
    | some n => if n = "" then none else some n
    | none => none)
  ot.filterMap (fun b =>
    match b.optionname, b.optioncode with
    | some n, some c =>
      if n ∈ brandNames ∧ c ≠ "" ∧ pyIsDigit c then
        some ⟨"제조사", n, c⟩
      else
        none
    | _, _ => none)

/-- The `options` list `get_search_options` has built just before its
empty-check: empty when either tab container is missing. -/
def strategyFacets (doc : MakerDoc) : List Facet :=
  match doc.makerBrandTab with
  | none => []
  | some bt =>
    match doc.makerOptionTab with
    | none => []
    | some ot => qualifyingFacets bt ot

/-- `DanawaParser.get_search_options`, from the fetched document on:
discovered options capped at 20, or the hardcoded default list when the
document yielded none. -/
def getSearchOptions (doc : MakerDoc) : List Facet :=
  let options := strategyFacets doc
  if options.isEmpty then defaultManufacturers else options.take 20

/--
One candidate listing node, cut at the DOM boundary of
`DanawaParser._parse_product_item` / `_get_specifications_from_item`:

* `titleSpan`    — text of `span.goods-list__title` (with `<br>` already
                   replaced by a space, as the code does on the node);
* `linkTitle`    — `title` attribute of the first `a[title]`;
* `altTitles`    — results of `item.find(class_=cls)` for the classes
                   `title`, `product-title`, `goods-title`, `item-title`;
* `priceDiv`     — `div.goods-list__price` (`none` = absent), holding the
                   text of its `em.num` (falling back to `em.number`);
* `altPrices`    — results of `item.find(class_=cls)` for `price`, `cost`,
                   `money`, `won`;
* `specSpans`    — the `span`s of the resolved `div.spec-box__inner`
                   (class list and text of each), `none` = no such div;
* `altSpecTexts` — per spec class (`spec`, `specification`, `details`,
                   `info`, `feature`) the text nodes of the found element;
* `titleAttrs`   — `title` attributes of the `a`/`button`/`div` elements,
                   in document order.
-/
structure DanawaItem where
  titleSpan : Option String
  linkTitle : Option String
  altTitles : List (Option String)
  priceDiv : Option (Option String)
  altPrices : List (Option String)
  specSpans : Option (List (List String × String))
  altSpecTexts : List (Option (List String))
  titleAttrs : List String
deriving DecidableEq

/-- The generic-class name fallback loop (method 3 of the name extraction):
first found element with non-empty stripped text wins, otherwise the initial
`"정보 없음"` placeholder survives. -/
def firstAltName : List (Option String) → String
  | [] => "정보 없음"
  | none :: rest => firstAltName rest
  | some t :: rest => if pyStrip t ≠ "" then pyStrip t else firstAltName rest

/-- Name extraction of `_parse_product_item` (before the validity check). -/
def dName (it : DanawaItem) : String :=
  match it.titleSpan with
  | some t => collapseWs (pyStrip t)
  | none =>
    match it.linkTitle with
    | some t => pyStrip t
    | none => firstAltName it.altTitles

/-- The generic price-class fallback loop (method 2 of the price
extraction). -/
def dAltPrice : List (Option String) → String
  | [] => "가격 문의"
  | none :: rest => dAltPrice rest
  | some t :: rest =>
    if pyStrip t = "" then dAltPrice rest
    else if pyStrip t ≠ "-" ∧ '원' ∉ (pyStrip t).data then pyConcat (pyStrip t) "원"
    else if '원' ∈ (pyStrip t).data then pyStrip t
    else dAltPrice rest

/-- The primary `goods-list__price > em` path of the price extraction. -/
def dPrice1 (it : DanawaItem) : String :=
  match it.priceDiv with
  | some (some t) =>
    if pyStrip t ≠ "" ∧ pyStrip t ≠ "-" then pyConcat (pyStrip t) "원"
    else "가격 문의"
  | _ => "가격 문의"

/-- Price extraction of `_parse_product_item`: the
`goods-list__price > em` path, then the generic class list while the price is
still the `"가격 문의"` placeholder. -/
def dPrice (it : DanawaItem) : String :=
  if dPrice1 it = "가격 문의" then dAltPrice it.altPrices else dPrice1 it

/-- Method 1 of `_get_specifications_from_item`: texts of the
`spec-box__inner` spans that are not `slash`-classed, stripped, kept when
non-empty, longer than one character and not a separator glyph. -/
def specFromSpans (spans : List (List String × String)) : List String :=
  spans.filterMap (fun sp =>
    if "slash" ∈ sp.1 then none
    else
      let t := pyStrip sp.2
      if t ≠ "" ∧ 1 < t.length ∧ t ∉ ["/", "|", "-"] then some t else none)

/-- Method 2 of `_get_specifications_from_item`: first spec class whose
element yields at least one clean text fragment. -/
def altSpecs : List (Option (List String)) → List String
  | [] => []
  | none :: rest => altSpecs rest
  | some texts :: rest =>
    let cleaned := texts.filterMap (fun x =>
      let c := pyStrip x
      if c ≠ "" ∧ 1 < c.length ∧ c ∉ ["/", "|", "-"] then some c else none)
    if cleaned.isEmpty then altSpecs rest else cleaned

/-- Method 3 of `_get_specifications_from_item`: the first `title` attribute
longer than five characters once stripped. -/
def titleSpec : List String → List String
  | [] => []
  | t :: rest =>
    let tt := pyStrip t
    if tt ≠ "" ∧ 5 < tt.length then [tt] else titleSpec rest

/-- The dedup loop over `specs[:15]`: keep a fragment when its lowercase form
is unseen and its stripped form is longer than one character. -/
def uniqueSpecs : List String → List String → List String → List String
  | [], _, acc => acc
  | s :: rest, seen, acc =>
    if s.toLower ∉ seen ∧ 1 < (pyStrip s).length then
      uniqueSpecs rest (s.toLower :: seen) (acc ++ [pyStrip s])
    else
      uniqueSpecs rest seen acc

/-- Tail of `_get_specifications_from_item`: dedup, cap at 10, join with
`" / "`, with the `"사양 정보 없음"` placeholder when nothing survives. -/
def joinSpecs (specs : List String) : String :=
  if specs.isEmpty then "사양 정보 없음"
  else if (uniqueSpecs (specs.take 15) [] []).isEmpty then "사양 정보 없음"
  else pyJoin " / " ((uniqueSpecs (specs.take 15) [] []).take 10)

/-- `DanawaParser._get_specifications_from_item`. -/
def dSpecs (it : DanawaItem) : String :=
  let specs1 :=
    match it.specSpans with
    | none => []
    | some spans => specFromSpans spans
  let specs2 := if specs1.isEmpty then altSpecs it.altSpecTexts else specs1
  let specs3 := if specs2.isEmpty then titleSpec it.titleAttrs else specs2
  joinSpecs specs3

/-- `DanawaParser._parse_product_item`: `none` models the `return None` of
the validity check (`not name`, placeholder name, or stripped name shorter
than two characters). -/
def dParse (it : DanawaItem) : Option Product :=
  if dName it = "" ∨ pyStrip (dName it) = "정보 없음"
      ∨ (pyStrip (dName it)).length < 2 then
    none
  else
    some ⟨pyStrip (dName it), dPrice it, dSpecs it⟩

/-- The listing document as `DanawaParser.search_products` queries it:
`soup.find_all('li', class_=c)` and `soup.find_all('div', class_=c)`. -/
structure DanawaDoc where
  liByClass : String → List DanawaItem
  divByClass : String → List DanawaItem

/-- First non-empty list, as the `for cls in ...: ...; if product_items:
break` loops compute it. -/
def firstNonemptyList : List (List DanawaItem) → List DanawaItem
  | [] => []
  | l :: rest => if l.isEmpty then firstNonemptyList rest else l

/-- The selector cascade of `search_products`: the primary
`li.goods-list__item`, then looser `li` classes, then `div` classes. -/
def selectItems (doc : DanawaDoc) : List DanawaItem :=
  let primary := doc.liByClass "goods-list__item"
  if !primary.isEmpty then primary
  else
    let alt := firstNonemptyList
      [doc.liByClass "product-item", doc.liByClass "goods-item",
       doc.liByClass "list-item", doc.liByClass "item"]
    if !alt.isEmpty then alt
    else
      firstNonemptyList
        [doc.divByClass "goods-list__item", doc.divByClass "product-item",
         doc.divByClass "goods-item"]

/-- `DanawaParser.search_products` from the fetched document on: walk at most
`limit * 2` selected items, keep the successfully parsed ones, stop at
`limit`. -/
def searchProductsDoc (doc : DanawaDoc) (limit : Nat) : List Product :=
  (((selectItems doc).take (limit * 2)).filterMap dParse).take limit

/-- One guidecom listing node, cut at the selectors of
`GuidecomParser._parse_product_item`: texts of `.goods-list-name strong`,
`.goods-list-price .cost`, `.goods-list-spec` (`none` = selector missed). -/
structure GItem where
  nameText : Option String
  priceText : Option String
  specText : Option String
deriving DecidableEq

/-- Name field of `GuidecomParser._parse_product_item`. -/
def gName (it : GItem) : String :=
  match it.nameText with
  | some t => pyStrip t
  | none => "정보 없음"

/-- Price field of `GuidecomParser._parse_product_item`. -/
def gPrice (it : GItem) : String :=
  match it.priceText with
  | some t => if pyStrip t = "" then "가격 문의" else pyConcat (pyStrip t) "원"
  | none => "가격 문의"

/-- Specification field of `GuidecomParser._parse_product_item`. -/
def gSpec (it : GItem) : String :=
  match it.specText with
  | some t => pyReplaceChar (pyStrip t) '\n' " / "
  | none => "사양 정보 없음"

/-- `GuidecomParser._parse_product_item`. -/
def gParse (it : GItem) : Option Product :=
  some ⟨gName it, gPrice it, gSpec it⟩

/--
`remove_duplicates_keep_min(products, min_count=3)` inside
`DanawaParser.search_all_categories`: append while the name is unseen OR
fewer than three are kept, stop once five are kept.
-/
def rdkmAux : List Product → List String → List Product → List Product
  | [], _, acc => acc
  | p :: rest, seen, acc =>
    if p.name ∈ seen ∧ ¬acc.length < 3 then
      if 5 ≤ acc.length then acc else rdkmAux rest seen acc
    else
      if 5 ≤ (acc ++ [p]).length then acc ++ [p]
      else rdkmAux rest (p.name :: seen) (acc ++ [p])

def rdkm (products : List Product) : List Product :=
  rdkmAux products [] []

/-- The review-pass filter of `search_all_categories`: keep products whose
name is not among the kept popular names, stop at five. -/
def rfAux : List Product → List String → List Product → List Product
  | [], _, acc => acc
  | p :: rest, names, acc =>
    if p.name ∈ names then
      if 5 ≤ acc.length then acc else rfAux rest names acc
    else
      if 5 ≤ (acc ++ [p]).length then acc ++ [p]
      else rfAux rest names (acc ++ [p])

def reviewFilter (review : List Product) (names : List String) : List Product :=
  rfAux review names []

/-- The backfill loop of `search_all_categories`: when fewer than three
review products survived, append review products duplicating a kept popular
name while the total stays under five. -/
def bfAux : List Product → List String → List Product → List Product
  | [], _, acc => acc
  | p :: rest, names, acc =>
    if p.name ∈ names ∧ acc.length < 5 then
      bfAux rest names (acc ++ [p])
    else
      bfAux rest names acc

/-- `DanawaParser.search_all_categories`, from the two fetched listing passes
on: the pair (인기상품순 kept list, 상품평많은순 kept list). -/
def searchAllCategories (popular review : List Product) :
    List Product × List Product :=
  let popularUnique := rdkm popular
  let popularNames := popularUnique.map Product.name
  let reviewUnique := reviewFilter review popularNames
  let reviewFinal :=
    if reviewUnique.length < 3 then bfAux review popularNames reviewUnique
    else reviewUnique
  (popularUnique, reviewFinal)

/-- A concrete three-item listing document whose primary selector misses and
whose first fallback (`li.product-item`) hits (witness fixture). -/
def c7doc : DanawaDoc :=
  ⟨fun c =>
    if c = "product-item" then
      [⟨some "Prod Alpha", none, [], some (some "1,000"), [], none, [], []⟩,
       ⟨some "Prod Beta", none, [], some (some "2,000"), [], none, [], []⟩,
       ⟨some "Prod Gamma", none, [], none, [], none, [], []⟩]
    else [],
   fun _ => []⟩

/-! ## Theorems -/

theorem runsByAux_of_all (p : Char → Bool) :
    ∀ (l cur : List Char), (∀ c ∈ l, p c = true) →
      runsByAux p l cur
        = if (cur.reverse ++ l).isEmpty then [] else [cur.reverse ++ l] := by
  intro l
  induction l with
  | nil =>
    intro cur _
    simp [runsByAux, List.isEmpty_iff]
  | cons c rest ih =>
    intro cur h
    rw [runsByAux, h c (List.mem_cons_self c rest)]
    simp only [if_true]
    rw [ih (c :: cur) (fun x hx => h x (List.mem_cons_of_mem c hx))]
    simp [List.isEmpty_iff]

/-- A non-empty string all of whose characters match the class is a single
`re.findall` run. -/
theorem runsBy_of_all (p : Char → Bool) (l : List Char) (h1 : l ≠ [])
    (h2 : ∀ c ∈ l, p c = true) : runsBy p l = [l] := by
  rw [runsBy, runsByAux_of_all p l [] h2]
  simp [List.isEmpty_iff, h1]

/--
C5: the claim states that for every input text containing no digits
(including `""` and `"가격 문의"`) the price parser returns null and never
raises.  The code returns its null sentinel `999999999` for `""` and
`"가격 문의"`, but on the digit-free input `","` the regex `[0-9,]+` matches
the comma run, `.replace(',', '')` empties it, and `int('')` raises
`ValueError` — the parser does raise.
-/
theorem extract_price_number_comma_raises :
    extract_price_number "," = Except.error ()
      ∧ extract_price_number "" = Except.ok 999999999
      ∧ extract_price_number "가격 문의" = Except.ok 999999999 := by
  refine ⟨?_, ?_, ?_⟩ <;> decide

/--
C6: for every price text that is a single comma-grouped numeral (non-empty,
only digits and commas, at least one digit), `extract_price_number` strips the
separators and returns the exact integer value — the value of the numeral's
digit sequence.
-/
theorem extract_price_number_single_numeral (s : String)
    (h1 : s.data ≠ [])
    (h2 : ∀ c ∈ s.data, c.isDigit = true ∨ c = ',')
    (h3 : ∃ c ∈ s.data, c.isDigit = true) :
    extract_price_number s
      = Except.ok (digitsToNat (s.data.filter Char.isDigit)) := by
  have hall : ∀ c ∈ s.data, isNumChar c = true := by
    intro c hc
    rcases h2 c hc with h | h
    · simp [isNumChar, h]
    · simp [isNumChar, h]
  have hfilter : s.data.filter (fun c => c != ',') = s.data.filter Char.isDigit := by
    apply List.filter_congr
    intro c hc
    rcases h2 c hc with h | h
    · have hne : c ≠ ',' := by
        intro e
        rw [e] at h
        simp at h
      simp [h, hne]
    · simp [h]
  have hd : s.data.filter (fun c => c != ',') ≠ [] := by
    rw [hfilter]
    obtain ⟨c, hc, hdig⟩ := h3
    exact List.ne_nil_of_mem (List.mem_filter.mpr ⟨hc, hdig⟩)
  unfold extract_price_number
  rw [runsBy_of_all isNumChar s.data h1 hall]
  simp only [hfilter] at hd ⊢
  rw [if_neg (by simpa [List.isEmpty_iff] using hd)]

/-- Witness for C6 at the spec's own example `"1,939,210" ↦ 1939210`. -/
theorem extract_price_number_single_numeral_witness :
    ("1,939,210" : String).data ≠ []
      ∧ (∀ c ∈ ("1,939,210" : String).data, c.isDigit = true ∨ c = ',')
      ∧ (∃ c ∈ ("1,939,210" : String).data, c.isDigit = true)
      ∧ extract_price_number "1,939,210" = Except.ok 1939210 := by
  refine ⟨by decide, by decide, by decide, ?_⟩
  rw [extract_price_number_single_numeral "1,939,210" (by decide) (by decide)
    (by decide)]
  decide

/--
C1: the claim states that `get_search_options` keeps facets with non-numeric
codes.  The code filters option buttons with `opt_code.isdigit()`: on a page
whose only qualifying manufacturer button carries the non-numeric code
`"A17X"`, the facet is silently dropped and the hardcoded default list is
returned instead — no facet with that code survives.
-/
theorem nonnumeric_facet_code_dropped :
    getSearchOptions ⟨some [⟨some "ASUS", none⟩], some [⟨some "ASUS", some "A17X"⟩]⟩
        = defaultManufacturers
      ∧ ∀ f ∈ getSearchOptions
          ⟨some [⟨some "ASUS", none⟩], some [⟨some "ASUS", some "A17X"⟩]⟩,
          f.code ≠ "A17X" := by
  refine ⟨by decide, by decide⟩

/--
C2 counterexample: on a document where the discovery strategy finds nothing
(no maker tab at all), `get_search_options` does NOT return the empty
sequence — it returns the hardcoded 12-entry default manufacturer list.
-/
theorem empty_strategy_not_empty_result :
    getSearchOptions ⟨none, none⟩ = defaultManufacturers
      ∧ getSearchOptions ⟨none, none⟩ ≠ []
      ∧ (getSearchOptions ⟨none, none⟩).length = 12 := by
  refine ⟨by decide, by decide, by decide⟩

/--
C2 amended: whenever the document-discovery strategy of
`get_search_options` yields zero facets, the function returns the hardcoded
default manufacturer list (never the empty sequence).
-/
theorem empty_strategy_returns_defaults (doc : MakerDoc)
    (h : strategyFacets doc = []) :
    getSearchOptions doc = defaultManufacturers := by
  unfold getSearchOptions
  rw [h]
  rfl

/-- Witness for the amended C2 at a concrete document with empty tabs. -/
theorem empty_strategy_returns_defaults_witness :
    strategyFacets ⟨some [], some []⟩ = []
      ∧ getSearchOptions ⟨some [], some []⟩ = defaultManufacturers := by
  refine ⟨by decide, ?_⟩
  exact empty_strategy_returns_defaults ⟨some [], some []⟩ (by decide)

/--
C9 counterexample: `get_search_options` performs no `(code, name)`
deduplication — a page exposing the same qualifying manufacturer button twice
yields the same facet pair twice in one result.
-/
theorem duplicate_facet_pairs_kept :
    getSearchOptions
        ⟨some [⟨some "ASUS", none⟩],
         some [⟨some "ASUS", some "17"⟩, ⟨some "ASUS", some "17"⟩]⟩
      = [⟨"제조사", "ASUS", "17"⟩, ⟨"제조사", "ASUS", "17"⟩]
      ∧ ¬ ((getSearchOptions
            ⟨some [⟨some "ASUS", none⟩],
             some [⟨some "ASUS", some "17"⟩, ⟨some "ASUS", some "17"⟩]⟩).map
          (fun f => (f.code, f.name))).Nodup := by
  refine ⟨by decide, by decide⟩

/--
C9 amended: `get_search_options` does not deduplicate: the `(code, name)`
pairs of one result are unique only when the qualifying option buttons
themselves expose no duplicate pair (the hardcoded default lists are
duplicate-free).
-/
theorem facet_pairs_nodup_of_page_nodup (doc : MakerDoc)
    (h : ((strategyFacets doc).map (fun f => (f.code, f.name))).Nodup) :
    ((getSearchOptions doc).map (fun f => (f.code, f.name))).Nodup := by
  unfold getSearchOptions
  by_cases he : (strategyFacets doc).isEmpty
  · rw [if_pos he]
    decide
  · rw [if_neg he]
    exact h.sublist (((strategyFacets doc).take_sublist 20).map _)

/-- Witness for the amended C9 at a concrete duplicate-free document. -/
theorem facet_pairs_nodup_of_page_nodup_witness :
    ((strategyFacets ⟨some [⟨some "ASUS", none⟩], some [⟨some "ASUS", some "17"⟩]⟩).map
        (fun f => (f.code, f.name))).Nodup
      ∧ ((getSearchOptions
            ⟨some [⟨some "ASUS", none⟩], some [⟨some "ASUS", some "17"⟩]⟩).map
          (fun f => (f.code, f.name))).Nodup := by
  refine ⟨by decide, ?_⟩
  exact facet_pairs_nodup_of_page_nodup
    ⟨some [⟨some "ASUS", none⟩], some [⟨some "ASUS", some "17"⟩]⟩ (by decide)

theorem ddAux_filter_of_mem (X : String) :
    ∀ (l : List Product) (seen : List String), X ∈ seen →
      (ddAux l seen).filter (fun p => p.name == X) = [] := by
  intro l
  induction l with
  | nil => intro seen _; simp [ddAux]
  | cons p rest ih =>
    intro seen hX
    rw [ddAux]
    by_cases h : p.name ∈ seen
    · rw [if_pos h]
      exact ih seen hX
    · rw [if_neg h]
      have hpX : (p.name == X) = false := by
        apply beq_eq_false_iff_ne.mpr
        intro e
        exact h (e ▸ hX)
      rw [List.filter_cons, hpX]
      simp only [Bool.false_eq_true, if_false]
      exact ih (p.name :: seen) (List.mem_cons_of_mem _ hX)

theorem ddAux_filter_find (X : String) :
    ∀ (l : List Product) (seen : List String), X ∉ seen →
      (ddAux l seen).filter (fun p => p.name == X)
        = (l.find? (fun p => p.name == X)).toList := by
  intro l
  induction l with
  | nil => intro seen _; simp [ddAux]
  | cons p rest ih =>
    intro seen hX
    rw [ddAux]
    by_cases h : p.name ∈ seen
    · have hpX : (p.name == X) = false := by
        apply beq_eq_false_iff_ne.mpr
        intro e
        exact hX (e ▸ h)
      rw [if_pos h, List.find?_cons, hpX]
      exact ih seen hX
    · rw [if_neg h]
      by_cases hpX : (p.name == X) = true
      · rw [List.filter_cons, hpX, List.find?_cons, hpX]
        simp only [if_true, Option.toList_some]
        have : X ∈ p.name :: seen := by
          rw [eq_of_beq hpX] at *
          exact List.mem_cons_self _ _
        rw [ddAux_filter_of_mem X rest (p.name :: seen) this]
      · have hpX' : (p.name == X) = false := by
          simpa using hpX
        rw [List.filter_cons, hpX', List.find?_cons, hpX']
        simp only [Bool.false_eq_true, if_false]
        apply ih (p.name :: seen)
        intro hmem
        rcases List.mem_cons.mp hmem with e | e
        · exact hpX (by rw [e]; exact beq_self_eq_true _)
        · exact hX e

/--
C3 amended: in the streamlit aggregation path the combined passes are
deduplicated by name BEFORE the price sort, so for any name present in the
combined set the result contains exactly one product with that name and it is
the first-seen occurrence (carrying the first-seen price); in the guidecom
excel-preparation path (see the counterexample) the sort runs first, so the
lowest-priced occurrence survives instead.
-/
theorem streamlit_first_occurrence_wins (l : List Product) (X : String)
    (q : Product) (hfind : l.find? (fun p => p.name == X) = some q)
    (out : List Product) (hout : streamlitAggregate l = Except.ok out) :
    out.filter (fun p => p.name == X) = [q] := by
  have hd : (dedupByName l).filter (fun p => p.name == X) = [q] := by
    rw [dedupByName, ddAux_filter_find X l [] (by simp), hfind]
    rfl
  rw [streamlitAggregate, sortByPrice] at hout
  split at hout
  · have heq : out = List.insertionSort priceLe (dedupByName l) :=
      (Except.ok.inj hout).symm
    subst heq
    have hperm :
        List.Perm
          ((List.insertionSort priceLe (dedupByName l)).filter
            (fun p => p.name == X))
          ((dedupByName l).filter (fun p => p.name == X)) :=
      (List.perm_insertionSort priceLe (dedupByName l)).filter _
    rw [hd] at hperm
    exact List.perm_singleton.mp hperm
  · exact absurd hout (by simp)

/-- Witness for the amended C3: name `"X"` at `500원` seen first, at `100원`
seen second — the streamlit result keeps the `500원` occurrence. -/
theorem streamlit_first_occurrence_wins_witness :
    ([⟨"X", "500원", "s"⟩, ⟨"X", "100원", "s"⟩] : List Product).find?
        (fun p => p.name == "X") = some ⟨"X", "500원", "s"⟩
      ∧ streamlitAggregate [⟨"X", "500원", "s"⟩, ⟨"X", "100원", "s"⟩]
          = Except.ok [⟨"X", "500원", "s"⟩]
      ∧ ([⟨"X", "500원", "s"⟩] : List Product).filter (fun p => p.name == "X")
          = [⟨"X", "500원", "s"⟩] := by
  refine ⟨by decide, by decide, ?_⟩
  exact streamlit_first_occurrence_wins
    [⟨"X", "500원", "s"⟩, ⟨"X", "100원", "s"⟩] "X" ⟨"X", "500원", "s"⟩
    (by decide) [⟨"X", "500원", "s"⟩] (by decide)

/--
C3 counterexample: `GuidecomParser._prepare_excel_data` sorts by price BEFORE
deduplicating, so with `"X"` seen first at `500원` and second at `100원` the
merged result keeps the `100원` occurrence — not the price of the first-seen
occurrence.
-/
theorem guidecom_dedup_keeps_lowest_price :
    prepareExcelData [[⟨"X", "500원", "s"⟩], [⟨"X", "100원", "s"⟩]]
        = Except.ok [⟨"X", "100원", "s"⟩]
      ∧ ("100원" : String) ≠ "500원" := by
  refine ⟨by decide, by decide⟩

/--
C4 counterexample: the ranking has NO name tie-break (two equal-priced
products stay in input order `B, A` rather than sorting to `A, B`), and an
unparseable price is mapped to the sentinel `999999999` rather than +infinity,
so a product with the parsed price `1,000,000,000원` sorts AFTER the
unparseable-price product.
-/
theorem ranking_counterexample :
    sortByPrice [⟨"B", "100원", ""⟩, ⟨"A", "100원", ""⟩]
        = Except.ok [⟨"B", "100원", ""⟩, ⟨"A", "100원", ""⟩]
      ∧ sortByPrice [⟨"N", "가격 문의", ""⟩, ⟨"M", "1,000,000,000원", ""⟩]
          = Except.ok [⟨"N", "가격 문의", ""⟩, ⟨"M", "1,000,000,000원", ""⟩] := by
  refine ⟨by decide, by decide⟩

/--
C4 amended: the final ranking sorts by ascending `extract_price_number`
value, where an unparseable price maps to the sentinel `999999999` (hence
after every ordinarily-sized parsed price but before prices above the
sentinel); equal keys keep input order (stable sort, no name tie-break).  In
particular prices `[null, 500, 100]` sort to `[100, 500, null]`.
-/
theorem ranking_ascending_with_null_sentinel :
    (∀ (l out : List Product), sortByPrice l = Except.ok out →
        out.Perm l ∧ List.Sorted priceLe out)
      ∧ sortByPrice [⟨"N", "가격 문의", ""⟩, ⟨"B", "500원", ""⟩, ⟨"C", "100원", ""⟩]
          = Except.ok
              [⟨"C", "100원", ""⟩, ⟨"B", "500원", ""⟩, ⟨"N", "가격 문의", ""⟩] := by
  constructor
  · intro l out hout
    rw [sortByPrice] at hout
    split at hout
    · have heq : out = List.insertionSort priceLe l :=
        (Except.ok.inj hout).symm
      subst heq
      exact ⟨List.perm_insertionSort priceLe l,
        List.sorted_insertionSort priceLe l⟩
    · exact absurd hout (by simp)
  · decide

/-- Witness for the amended C4 at a concrete two-element list. -/
theorem ranking_ascending_with_null_sentinel_witness :
    sortByPrice [⟨"B", "300원", ""⟩, ⟨"A", "200원", ""⟩]
        = Except.ok [⟨"A", "200원", ""⟩, ⟨"B", "300원", ""⟩]
      ∧ (([⟨"A", "200원", ""⟩, ⟨"B", "300원", ""⟩] : List Product).Perm
            [⟨"B", "300원", ""⟩, ⟨"A", "200원", ""⟩]
          ∧ List.Sorted priceLe [⟨"A", "200원", ""⟩, ⟨"B", "300원", ""⟩]) := by
  refine ⟨by decide, ?_⟩
  exact ranking_ascending_with_null_sentinel.1
    [⟨"B", "300원", ""⟩, ⟨"A", "200원", ""⟩]
    [⟨"A", "200원", ""⟩, ⟨"B", "300원", ""⟩] (by decide)

/--
C7: if the primary listing selector `li.goods-list__item` matches zero nodes
and the fallback selector `li.product-item` (the cascade's next strategy)
matches exactly three well-formed nodes, `search_products` returns those three
parsed products — zero matches advances the cascade, it is not an error.
-/
theorem cascade_fallthrough (doc : DanawaDoc) (i1 i2 i3 : DanawaItem)
    (p1 p2 p3 : Product)
    (h0 : doc.liByClass "goods-list__item" = [])
    (h1 : doc.liByClass "product-item" = [i1, i2, i3])
    (e1 : dParse i1 = some p1) (e2 : dParse i2 = some p2)
    (e3 : dParse i3 = some p3) :
    searchProductsDoc doc 5 = [p1, p2, p3] := by
  rw [searchProductsDoc, selectItems, h0, h1]
  simp [firstNonemptyList, List.filterMap_cons, e1, e2, e3]

/-- Witness for C7 at a concrete document whose primary selector misses. -/
theorem cascade_fallthrough_witness :
    c7doc.liByClass "goods-list__item" = []
      ∧ c7doc.liByClass "product-item"
          = [⟨some "Prod Alpha", none, [], some (some "1,000"), [], none, [], []⟩,
             ⟨some "Prod Beta", none, [], some (some "2,000"), [], none, [], []⟩,
             ⟨some "Prod Gamma", none, [], none, [], none, [], []⟩]
      ∧ dParse ⟨some "Prod Alpha", none, [], some (some "1,000"), [], none, [], []⟩
          = some ⟨"Prod Alpha", "1,000원", "사양 정보 없음"⟩
      ∧ dParse ⟨some "Prod Beta", none, [], some (some "2,000"), [], none, [], []⟩
          = some ⟨"Prod Beta", "2,000원", "사양 정보 없음"⟩
      ∧ dParse ⟨some "Prod Gamma", none, [], none, [], none, [], []⟩
          = some ⟨"Prod Gamma", "가격 문의", "사양 정보 없음"⟩
      ∧ searchProductsDoc c7doc 5
          = [⟨"Prod Alpha", "1,000원", "사양 정보 없음"⟩,
             ⟨"Prod Beta", "2,000원", "사양 정보 없음"⟩,
             ⟨"Prod Gamma", "가격 문의", "사양 정보 없음"⟩] := by
  refine ⟨by decide, by decide, by decide, by decide, by decide, ?_⟩
  exact cascade_fallthrough c7doc
    ⟨some "Prod Alpha", none, [], some (some "1,000"), [], none, [], []⟩
    ⟨some "Prod Beta", none, [], some (some "2,000"), [], none, [], []⟩
    ⟨some "Prod Gamma", none, [], none, [], none, [], []⟩
    ⟨"Prod Alpha", "1,000원", "사양 정보 없음"⟩
    ⟨"Prod Beta", "2,000원", "사양 정보 없음"⟩
    ⟨"Prod Gamma", "가격 문의", "사양 정보 없음"⟩
    (by decide) (by decide) (by decide) (by decide) (by decide)

theorem rdkmAux_min :
    ∀ (l : List Product) (seen : List String) (acc : List Product),
      min 3 (acc.length + l.length) ≤ (rdkmAux l seen acc).length := by
  intro l
  induction l with
  | nil =>
    intro seen acc
    rw [rdkmAux]
    simp only [List.length_nil]
    omega
  | cons p rest ih =>
    intro seen acc
    rw [rdkmAux]
    simp only [List.length_cons]
    by_cases h : p.name ∈ seen ∧ ¬acc.length < 3
    · rw [if_pos h]
      have h2 := h.2
      by_cases h5 : 5 ≤ acc.length
      · rw [if_pos h5]
        omega
      · rw [if_neg h5]
        have := ih seen acc
        omega
    · rw [if_neg h]
      by_cases h5 : 5 ≤ (acc ++ [p]).length
      · rw [if_pos h5]
        simp only [List.length_append, List.length_singleton] at h5 ⊢
        omega
      · rw [if_neg h5]
        have := ih (p.name :: seen) (acc ++ [p])
        simp only [List.length_append, List.length_singleton] at this
        omega

theorem rfAux_not_mem :
    ∀ (l : List Product) (names : List String) (acc : List Product),
      (∀ p ∈ acc, p.name ∉ names) →
      ∀ p ∈ rfAux l names acc, p.name ∉ names := by
  intro l
  induction l with
  | nil =>
    intro names acc hacc
    rw [rfAux]
    exact hacc
  | cons q rest ih =>
    intro names acc hacc
    rw [rfAux]
    by_cases h : q.name ∈ names
    · rw [if_pos h]
      by_cases h5 : 5 ≤ acc.length
      · rw [if_pos h5]; exact hacc
      · rw [if_neg h5]; exact ih names acc hacc
    · rw [if_neg h]
      have hacc' : ∀ p ∈ acc ++ [q], p.name ∉ names := by
        intro p hp
        rcases List.mem_append.mp hp with hp | hp
        · exact hacc p hp
        · rw [List.mem_singleton.mp hp]; exact h
      by_cases h5 : 5 ≤ (acc ++ [q]).length
      · rw [if_pos h5]; exact hacc'
      · rw [if_neg h5]; exact ih names (acc ++ [q]) hacc'

theorem bfAux_append :
    ∀ (l : List Product) (names : List String) (acc : List Product),
      ∃ added, bfAux l names acc = acc ++ added
        ∧ ∀ p ∈ added, p.name ∈ names ∧ p ∈ l := by
  intro l
  induction l with
  | nil =>
    intro names acc
    exact ⟨[], by rw [bfAux]; simp, by simp⟩
  | cons q rest ih =>
    intro names acc
    rw [bfAux]
    by_cases h : q.name ∈ names ∧ acc.length < 5
    · rw [if_pos h]
      obtain ⟨ad, he, hp⟩ := ih names (acc ++ [q])
      refine ⟨q :: ad, ?_, ?_⟩
      · rw [he, List.append_assoc, List.singleton_append]
      · intro p hp'
        rcases List.mem_cons.mp hp' with e | e
        · subst e; exact ⟨h.1, List.mem_cons_self _ _⟩
        · exact ⟨(hp p e).1, List.mem_cons_of_mem _ (hp p e).2⟩
    · rw [if_neg h]
      obtain ⟨ad, he, hp⟩ := ih names acc
      exact ⟨ad, he, fun p hp' =>
        ⟨(hp p hp').1, List.mem_cons_of_mem _ (hp p hp').2⟩⟩

/--
C8: the per-category aggregation of `search_all_categories`: the primary
(인기상품순) category keeps at least `min 3 n` of its own items (the floor
tolerates internal duplicate names); every product the review filter kept has
a name outside the primary kept set; when at least three review products
survive they are the final secondary list, and when fewer than three survive
the secondary list is backfilled with review-pass items whose names duplicate
the primary kept set.
-/
theorem searchAll_min_retention_policy (popular review : List Product) :
    (searchAllCategories popular review).fst = rdkm popular
      ∧ min 3 popular.length ≤ (rdkm popular).length
      ∧ (∀ p ∈ reviewFilter review ((rdkm popular).map Product.name),
          p.name ∉ (rdkm popular).map Product.name)
      ∧ (3 ≤ (reviewFilter review ((rdkm popular).map Product.name)).length →
          (searchAllCategories popular review).snd
            = reviewFilter review ((rdkm popular).map Product.name))
      ∧ ((reviewFilter review ((rdkm popular).map Product.name)).length < 3 →
          ∃ added,
            (searchAllCategories popular review).snd
              = reviewFilter review ((rdkm popular).map Product.name) ++ added
            ∧ ∀ p ∈ added,
                p.name ∈ (rdkm popular).map Product.name ∧ p ∈ review) := by
  refine ⟨rfl, ?_, ?_, ?_, ?_⟩
  · have h := rdkmAux_min popular [] []
    simpa [rdkm] using h
  · intro p hp
    exact rfAux_not_mem review ((rdkm popular).map Product.name) []
      (by simp) p hp
  · intro h
    simp only [searchAllCategories]
    rw [if_neg (by omega)]
  · intro h
    obtain ⟨added, he, hp⟩ := bfAux_append review
      ((rdkm popular).map Product.name)
      (reviewFilter review ((rdkm popular).map Product.name))
    refine ⟨added, ?_, hp⟩
    simp only [searchAllCategories]
    rw [if_pos h]
    exact he

/-- Witness for C8: primary pass of three same-named items (floor forces
duplicates to be kept), secondary pass needing backfill. -/
theorem searchAll_min_retention_policy_witness :
    min 3 ([⟨"A", "1원", ""⟩, ⟨"A", "1원", ""⟩, ⟨"A", "1원", ""⟩] :
        List Product).length
        ≤ (rdkm [⟨"A", "1원", ""⟩, ⟨"A", "1원", ""⟩, ⟨"A", "1원", ""⟩]).length
      ∧ (∃ added,
          (searchAllCategories
              [⟨"A", "1원", ""⟩, ⟨"A", "1원", ""⟩, ⟨"A", "1원", ""⟩]
              [⟨"A", "2원", ""⟩, ⟨"B", "3원", ""⟩]).snd
            = reviewFilter [⟨"A", "2원", ""⟩, ⟨"B", "3원", ""⟩]
                ((rdkm [⟨"A", "1원", ""⟩, ⟨"A", "1원", ""⟩, ⟨"A", "1원", ""⟩]).map
                  Product.name) ++ added
            ∧ ∀ p ∈ added,
                p.name ∈ (rdkm [⟨"A", "1원", ""⟩, ⟨"A", "1원", ""⟩,
                    ⟨"A", "1원", ""⟩]).map Product.name
                  ∧ p ∈ [⟨"A", "2원", ""⟩, ⟨"B", "3원", ""⟩]) := by
  refine ⟨?_, ?_⟩
  · exact (searchAll_min_retention_policy
      [⟨"A", "1원", ""⟩, ⟨"A", "1원", ""⟩, ⟨"A", "1원", ""⟩]
      [⟨"A", "2원", ""⟩, ⟨"B", "3원", ""⟩]).2.1
  · exact (searchAll_min_retention_policy
      [⟨"A", "1원", ""⟩, ⟨"A", "1원", ""⟩, ⟨"A", "1원", ""⟩]
      [⟨"A", "2원", ""⟩, ⟨"B", "3원", ""⟩]).2.2.2.2 (by decide)

theorem data_pyConcat (a b : String) : (pyConcat a b).data = a.data ++ b.data :=
  rfl

theorem won_mem_pyConcat (s : String) : '원' ∈ (pyConcat s "원").data := by
  rw [data_pyConcat]
  exact List.mem_append.mpr (Or.inr (by decide))

theorem dAltPrice_spec :
    ∀ (l : List (Option String)),
      dAltPrice l = "가격 문의" ∨ '원' ∈ (dAltPrice l).data := by
  intro l
  induction l with
  | nil => exact Or.inl rfl
  | cons o rest ih =>
    cases o with
    | none =>
      rw [dAltPrice]
      exact ih
    | some t =>
      rw [dAltPrice]
      by_cases h1 : pyStrip t = ""
      · rw [if_pos h1]; exact ih
      · rw [if_neg h1]
        by_cases h2 : pyStrip t ≠ "-" ∧ '원' ∉ (pyStrip t).data
        · rw [if_pos h2]; exact Or.inr (won_mem_pyConcat _)
        · rw [if_neg h2]
          by_cases h3 : '원' ∈ (pyStrip t).data
          · rw [if_pos h3]; exact Or.inr h3
          · rw [if_neg h3]; exact ih

theorem dPrice1_spec (it : DanawaItem) :
    dPrice1 it = "가격 문의" ∨ '원' ∈ (dPrice1 it).data := by
  rw [dPrice1]
  split
  · split
    · exact Or.inr (won_mem_pyConcat _)
    · exact Or.inl rfl
  · exact Or.inl rfl

theorem dPrice_spec (it : DanawaItem) :
    dPrice it = "가격 문의" ∨ '원' ∈ (dPrice it).data := by
  rw [dPrice]
  by_cases h : dPrice1 it = "가격 문의"
  · rw [if_pos h]; exact dAltPrice_spec it.altPrices
  · rw [if_neg h]
    rcases dPrice1_spec it with h' | h'
    · exact absurd h' h
    · exact Or.inr h'

theorem string_ne_empty_of_data_ne (s : String) (h : s.data ≠ []) : s ≠ "" := by
  intro e
  rw [e] at h
  exact h rfl

theorem pyJoin_cons_length (sep x : String) (xs : List String) :
    x.data.length ≤ (pyJoin sep (x :: xs)).data.length := by
  cases xs with
  | nil => exact Nat.le_refl _
  | cons y ys =>
    rw [pyJoin, data_pyConcat]
    simp

theorem uniqueSpecs_two_le :
    ∀ (l : List String) (seen : List String) (acc : List String),
      (∀ x ∈ acc, 2 ≤ x.data.length) →
      ∀ x ∈ uniqueSpecs l seen acc, 2 ≤ x.data.length := by
  intro l
  induction l with
  | nil =>
    intro seen acc hacc
    rw [uniqueSpecs]
    exact hacc
  | cons s rest ih =>
    intro seen acc hacc
    rw [uniqueSpecs]
    by_cases h : s.toLower ∉ seen ∧ 1 < (pyStrip s).length
    · rw [if_pos h]
      apply ih
      intro x hx
      rcases List.mem_append.mp hx with hx | hx
      · exact hacc x hx
      · rw [List.mem_singleton.mp hx]
        exact h.2
    · rw [if_neg h]
      exact ih seen acc hacc

theorem joinSpecs_ne_empty (specs : List String) : joinSpecs specs ≠ "" := by
  rw [joinSpecs]
  by_cases h1 : specs.isEmpty
  · rw [if_pos h1]; decide
  · rw [if_neg h1]
    by_cases h2 : (uniqueSpecs (specs.take 15) [] []).isEmpty
    · rw [if_pos h2]; decide
    · rw [if_neg h2]
      obtain ⟨x, xs, hu⟩ :
          ∃ x xs, uniqueSpecs (specs.take 15) [] [] = x :: xs := by
        cases hu : uniqueSpecs (specs.take 15) [] [] with
        | nil => rw [hu] at h2; simp at h2
        | cons x xs => exact ⟨x, xs, rfl⟩
      have hx : 2 ≤ x.data.length :=
        uniqueSpecs_two_le (specs.take 15) [] [] (by simp) x
          (by rw [hu]; exact List.mem_cons_self _ _)
      rw [hu, show (10 : Nat) = 9 + 1 from rfl, List.take_succ_cons]
      apply string_ne_empty_of_data_ne
      have hlen := pyJoin_cons_length " / " x (xs.take 9)
      intro e
      rw [e] at hlen
      simp only [List.length_nil] at hlen
      omega

theorem dSpecs_ne_empty (it : DanawaItem) : dSpecs it ≠ "" := by
  rw [dSpecs]
  exact joinSpecs_ne_empty _

/--
C10 counterexample: the guidecom parser gives the `"정보 없음"` placeholder
only when the name node is absent; a present-but-whitespace name node yields a
Product whose `name` field is the EMPTY string — the claimed "non-empty string
fields" invariant fails.
-/
theorem guidecom_empty_name_product :
    gParse ⟨some "  ", none, none⟩
      = some ⟨"", "가격 문의", "사양 정보 없음"⟩ := by
  decide

/--
C10 amended: every returned Product has string fields (never null/integer)
with: danawa — name of length ≥ 2 and distinct from the placeholder, price
either `"가격 문의"` or containing `'원'` (suffixed on the primary paths), and
non-empty specifications; guidecom — price either `"가격 문의"` or suffixed
with `"원"`, with the `"정보 없음"` / `"사양 정보 없음"` placeholders
guaranteed only when the corresponding node is absent (a present-but-empty
node yields an empty field, see the counterexample).
-/
theorem parser_field_invariants :
    (∀ (it : DanawaItem) (p : Product), dParse it = some p →
        2 ≤ p.name.length ∧ p.name ≠ "정보 없음"
          ∧ (p.price = "가격 문의" ∨ '원' ∈ p.price.data)
          ∧ p.specifications ≠ "")
      ∧ (∀ (it : GItem) (p : Product), gParse it = some p →
          (p.price = "가격 문의" ∨ ∃ t, p.price = pyConcat t "원")
            ∧ (it.nameText = none → p.name = "정보 없음")
            ∧ (it.specText = none → p.specifications = "사양 정보 없음")) := by
  constructor
  · intro it p h
    rw [dParse] at h
    split at h
    · exact absurd h (by simp)
    · rename_i hcond
      push_neg at hcond
      have hp : p = ⟨pyStrip (dName it), dPrice it, dSpecs it⟩ :=
        (Option.some.inj h).symm
      subst hp
      refine ⟨?_, hcond.2.1, dPrice_spec it, dSpecs_ne_empty it⟩
      exact hcond.2.2
  · intro it p h
    rw [gParse] at h
    have hp : p = ⟨gName it, gPrice it, gSpec it⟩ := (Option.some.inj h).symm
    subst hp
    refine ⟨?_, ?_, ?_⟩
    · show gPrice it = "가격 문의" ∨ ∃ t, gPrice it = pyConcat t "원"
      rw [gPrice]
      split
      · split
        · exact Or.inl rfl
        · rename_i t _ _
          exact Or.inr ⟨pyStrip t, rfl⟩
      · exact Or.inl rfl
    · intro e
      show gName it = "정보 없음"
      rw [gName, e]
    · intro e
      show gSpec it = "사양 정보 없음"
      rw [gSpec, e]

/-- Witness for the amended C10: one well-formed danawa item, one guidecom
item with absent name and spec nodes. -/
theorem parser_field_invariants_witness :
    dParse ⟨some "Prod Alpha", none, [], some (some "1,000"), [], none, [], []⟩
        = some ⟨"Prod Alpha", "1,000원", "사양 정보 없음"⟩
      ∧ (2 ≤ ("Prod Alpha" : String).length
          ∧ ("Prod Alpha" : String) ≠ "정보 없음")
      ∧ gParse ⟨none, some " 1,000 ", none⟩
          = some ⟨"정보 없음", "1,000원", "사양 정보 없음"⟩
      ∧ ("정보 없음" : String) = "정보 없음"
      ∧ ("사양 정보 없음" : String) = "사양 정보 없음" := by
  refine ⟨by decide, ?_, by decide, ?_, ?_⟩
  · have h := parser_field_invariants.1
      ⟨some "Prod Alpha", none, [], some (some "1,000"), [], none, [], []⟩
      ⟨"Prod Alpha", "1,000원", "사양 정보 없음"⟩ (by decide)
    exact ⟨h.1, h.2.1⟩
  · exact (parser_field_invariants.2 ⟨none, some " 1,000 ", none⟩
      ⟨"정보 없음", "1,000원", "사양 정보 없음"⟩ (by decide)).2.1 rfl
  · exact (parser_field_invariants.2 ⟨none, some " 1,000 ", none⟩
      ⟨"정보 없음", "1,000원", "사양 정보 없음"⟩ (by decide)).2.2 rfl

end Crawler
